import Mathlib

/-!
Verification of the Cyclone Awareness Dashboard core services.

This development shallowly embeds the data-freshness and access-control
engine of the dashboard — the severity scorer, the TTL cache, the
sliding-window rate limiter, the retrying HTTP access layer and the
quota-bounded persistent store — and proves (or refutes) the behavioural
claims made about them.

Modelling conventions:
* JavaScript numbers that hold millisecond timestamps or byte sizes are
  modelled as `Int` / `Nat` (the source only ever stores integral values
  in them); the severity computation, which genuinely mixes fractional
  weights, is modelled over `Rat` with exact arithmetic.
* `Date.now()` is made an explicit `now : Int` parameter of every
  operation that reads the clock.
* JavaScript `Map`s are modelled as insertion-ordered association lists
  over `String` keys; `localStorage` is modelled as a record with one
  field per member of `STORAGE_KEYS` (the manager never touches any
  other key).
* A thrown `DashboardError` is modelled with `Except`: `.error` is a
  propagated exception, `.ok` a normal return.
-/

deriving instance DecidableEq for Except

/-! ## Association-list model of a JavaScript `Map` -/

/-- `Map.get`: the value stored under `k`, if any. -/
def alookup {β : Type} : List (String × β) → String → Option β
  | [], _ => none
  | p :: m, k => if p.1 = k then some p.2 else alookup m k

/-- `Map.set`: replace in place when the key is present, else append
(JS `Map` preserves insertion order and holds each key at most once). -/
def aset {β : Type} : List (String × β) → String → β → List (String × β)
  | [], k, v => [(k, v)]
  | p :: m, k, v => if p.1 = k then (k, v) :: m else p :: aset m k v

/-- `Map.delete`. -/
def adel {β : Type} : List (String × β) → String → List (String × β)
  | [], _ => []
  | p :: m, k => if p.1 = k then adel m k else p :: adel m k

theorem alookup_aset_self {β : Type} (m : List (String × β)) (k : String)
    (v : β) :
    alookup (aset m k v) k = some v := by
  induction m with
  | nil => simp [aset, alookup]
  | cons p m ih =>
    by_cases hp : p.1 = k
    · simp [aset, alookup, hp]
    · simp [aset, alookup, hp, ih]

theorem alookup_aset_ne {β : Type} (m : List (String × β)) (k k' : String)
    (v : β) (h : k' ≠ k) :
    alookup (aset m k v) k' = alookup m k' := by
  induction m with
  | nil => simp [aset, alookup, Ne.symm h]
  | cons p m ih =>
    by_cases hp : p.1 = k
    · simp [aset, alookup, hp, Ne.symm h]
    · simp [aset, alookup, hp, ih]

theorem alookup_adel_self {β : Type} (m : List (String × β)) (k : String) :
    alookup (adel m k) k = none := by
  induction m with
  | nil => rfl
  | cons p m ih =>
    by_cases hp : p.1 = k
    · simp [adel, hp, ih]
    · simp [adel, alookup, hp, ih]

theorem alookup_adel_ne {β : Type} (m : List (String × β)) (k k' : String)
    (h : k' ≠ k) :
    alookup (adel m k) k' = alookup m k' := by
  induction m with
  | nil => rfl
  | cons p m ih =>
    by_cases hp : p.1 = k
    · have hp' : p.1 ≠ k' := hp ▸ fun hh => h hh.symm
      simp [adel, alookup, hp, ih, hp', Ne.symm h]
    · simp [adel, alookup, hp, ih]

/-! ## Kernel-evaluable rational arithmetic

The standard `Rat.add`/`Rat.mul`/`Rat.inv` are `@[irreducible]`, which
makes closed evaluations of the model impossible by `decide`/`rfl`.  The
model therefore uses the following wrappers, built on the reducible
`Rat.divInt`, together with lemmas identifying them with the standard
operations. -/

def radd (a b : Rat) : Rat :=
  Rat.divInt (a.num * b.den + b.num * a.den) (a.den * b.den)

def rmul (a b : Rat) : Rat :=
  Rat.divInt (a.num * b.num) (a.den * b.den)

def rdiv (a b : Rat) : Rat :=
  Rat.divInt (a.num * b.den) (b.num * a.den)

/-- JS `Math.max`. -/
def jsMax (a b : Rat) : Rat := if a ≤ b then b else a

/-- JS `Math.min`. -/
def jsMin (a b : Rat) : Rat := if a ≤ b then a else b

theorem radd_eq (a b : Rat) : radd a b = a + b := by
  have ha : ((a.den : Rat)) ≠ 0 := (Nat.cast_ne_zero (R := Rat)).mpr a.den_nz
  have hb : ((b.den : Rat)) ≠ 0 := (Nat.cast_ne_zero (R := Rat)).mpr b.den_nz
  have hA := (div_eq_iff ha).mp (Rat.num_div_den a)
  have hB := (div_eq_iff hb).mp (Rat.num_div_den b)
  unfold radd
  rw [Rat.divInt_eq_div]
  push_cast
  rw [div_eq_iff (mul_ne_zero ha hb), hA, hB]
  ring

theorem rmul_eq (a b : Rat) : rmul a b = a * b := by
  have ha : ((a.den : Rat)) ≠ 0 := (Nat.cast_ne_zero (R := Rat)).mpr a.den_nz
  have hb : ((b.den : Rat)) ≠ 0 := (Nat.cast_ne_zero (R := Rat)).mpr b.den_nz
  have hA := (div_eq_iff ha).mp (Rat.num_div_den a)
  have hB := (div_eq_iff hb).mp (Rat.num_div_den b)
  unfold rmul
  rw [Rat.divInt_eq_div]
  push_cast
  rw [div_eq_iff (mul_ne_zero ha hb), hA, hB]
  ring

theorem rdiv_eq (a b : Rat) : rdiv a b = a / b := by
  rcases eq_or_ne b 0 with rb | rb
  · subst rb
    simp [rdiv, Rat.divInt_eq_div]
  · have ha : ((a.den : Rat)) ≠ 0 := (Nat.cast_ne_zero (R := Rat)).mpr a.den_nz
    have hb : ((b.den : Rat)) ≠ 0 := (Nat.cast_ne_zero (R := Rat)).mpr b.den_nz
    have hA := (div_eq_iff ha).mp (Rat.num_div_den a)
    have hB := (div_eq_iff hb).mp (Rat.num_div_den b)
    have hbn : ((b.num : Rat)) ≠ 0 := by
      rw [hB]
      exact mul_ne_zero rb hb
    unfold rdiv
    rw [Rat.divInt_eq_div]
    push_cast
    rw [div_eq_div_iff (mul_ne_zero hbn ha) rb, hA, hB]
    ring

theorem jsMax_eq (a b : Rat) : jsMax a b = max a b := by
  unfold jsMax
  split
  · exact (max_eq_right (by assumption)).symm
  · exact (max_eq_left (le_of_not_le (by assumption))).symm

theorem jsMin_eq (a b : Rat) : jsMin a b = min a b := by
  unfold jsMin
  split
  · exact (min_eq_left (by assumption)).symm
  · exact (min_eq_right (le_of_not_le (by assumption))).symm

theorem ratFloor_eq (q : Rat) : Rat.floor q = ⌊q⌋ := rfl

/-! ## Severity scorer (`src/services/severity/calculator.ts`)

The scorer is pure arithmetic over JS numbers; it is modelled over `Rat`
(the computation is exact for every input the claims mention, and the
one-decimal rounding step absorbs double-precision noise).  JS
`Math.round` rounds half toward positive infinity. -/

namespace Severity

inductive RiskLevel
  | low
  | moderate
  | high
deriving DecidableEq, Repr

inductive SeverityColor
  | yellow
  | orange
  | red
deriving DecidableEq, Repr

structure SeverityResult where
  score : Rat
  color : SeverityColor
  level : RiskLevel
deriving DecidableEq, Repr

def RAINFALL_MAX : Rat := 500

def WIND_SPEED_MAX : Rat := 200

def SCORE_MAX : Rat := 10

/-- `RISK_LEVEL_SCORES`: low = 2, moderate = 5, high = 9. -/
def riskLevelToScore : RiskLevel → Rat
  | .low => 2
  | .moderate => 5
  | .high => 9

/-- `normalizeRainfall`: clamp below 0 and above 500, else scale onto 0–10. -/
def normalizeRainfall (rainfall : Rat) : Rat :=
  if rainfall < 0 then 0
  else if rainfall > RAINFALL_MAX then SCORE_MAX
  else rmul (rdiv rainfall RAINFALL_MAX) SCORE_MAX

/-- `normalizeWindSpeed`: clamp below 0 and above 200, else scale onto 0–10. -/
def normalizeWindSpeed (windSpeed : Rat) : Rat :=
  if windSpeed < 0 then 0
  else if windSpeed > WIND_SPEED_MAX then SCORE_MAX
  else rmul (rdiv windSpeed WIND_SPEED_MAX) SCORE_MAX

/-- JS `Math.round`: round half toward positive infinity. -/
def jsRound (q : Rat) : Int := Rat.floor (radd q (mkRat 1 2))

/-- `getSeverityColor`: 0–3.9 yellow, 4–6.9 orange, 7–10 red, with
out-of-range clamping. -/
def getSeverityColor (score : Rat) : SeverityColor :=
  if score < 0 then .yellow
  else if score > SCORE_MAX then .red
  else if score ≤ mkRat 39 10 then .yellow
  else if score ≤ mkRat 69 10 then .orange
  else .red

/-- `scoreToRiskLevel`. -/
def scoreToRiskLevel (score : Rat) : RiskLevel :=
  if score ≤ mkRat 39 10 then .low
  else if score ≤ mkRat 69 10 then .moderate
  else .high

/-- `calculateDistrictSeverity`: weighted sum of the normalised inputs
(weights 0.4 / 0.3 / 0.3), clamped to [0,10] and rounded to one decimal. -/
def calculateDistrictSeverity (rainfall windSpeed : Rat)
    (floodingRisk : RiskLevel) : SeverityResult :=
  let rainfallNormalized := normalizeRainfall rainfall
  let windNormalized := normalizeWindSpeed windSpeed
  let floodingScore := riskLevelToScore floodingRisk
  let score := radd (radd (rmul rainfallNormalized (mkRat 4 10))
    (rmul windNormalized (mkRat 3 10))) (rmul floodingScore (mkRat 3 10))
  let clampedScore := jsMax 0 (jsMin SCORE_MAX score)
  let roundedScore := rdiv ((jsRound (rmul clampedScore 10) : Int) : Rat) 10
  { score := roundedScore
    color := getSeverityColor roundedScore
    level := scoreToRiskLevel roundedScore }

end Severity

namespace Severity

theorem norm_shape_nonneg {M c : Rat} (hM : 0 < M) :
    0 ≤ (if c < 0 then 0 else if c > M then (10:Rat) else c / M * 10) := by
  by_cases h1 : c < 0
  · rw [if_pos h1]
  · rw [if_neg h1]
    by_cases h2 : c > M
    · rw [if_pos h2]
      norm_num
    · rw [if_neg h2]
      have hc : 0 ≤ c := le_of_not_lt h1
      positivity

theorem norm_shape_mono {M a b : Rat} (hM : 0 < M) (h : a ≤ b) :
    (if a < 0 then 0 else if a > M then (10:Rat) else a / M * 10) ≤
    (if b < 0 then 0 else if b > M then (10:Rat) else b / M * 10) := by
  by_cases h1 : a < 0
  · rw [if_pos h1]
    exact norm_shape_nonneg hM
  · rw [if_neg h1]
    have hb0 : ¬ b < 0 := fun hb => h1 (lt_of_le_of_lt h hb)
    rw [if_neg hb0]
    by_cases h2 : a > M
    · rw [if_pos h2, if_pos (lt_of_lt_of_le h2 h)]
    · rw [if_neg h2]
      have haM : a ≤ M := le_of_not_lt h2
      by_cases h3 : b > M
      · rw [if_pos h3]
        calc a / M * 10 ≤ M / M * 10 := by gcongr
          _ = 10 := by rw [div_self hM.ne']; ring
      · rw [if_neg h3]
        gcongr

theorem normalizeRainfall_mono {a b : Rat} (h : a ≤ b) :
    normalizeRainfall a ≤ normalizeRainfall b := by
  have := norm_shape_mono (M := 500) (by norm_num) h
  simpa [normalizeRainfall, RAINFALL_MAX, SCORE_MAX, rmul_eq, rdiv_eq] using this

theorem normalizeWindSpeed_mono {a b : Rat} (h : a ≤ b) :
    normalizeWindSpeed a ≤ normalizeWindSpeed b := by
  have := norm_shape_mono (M := 200) (by norm_num) h
  simpa [normalizeWindSpeed, WIND_SPEED_MAX, SCORE_MAX, rmul_eq, rdiv_eq] using this

theorem severity_score_monotone (r r' w w' : Rat) (f : RiskLevel)
    (hr : r ≤ r') (hw : w ≤ w') :
    (calculateDistrictSeverity r w f).score ≤
      (calculateDistrictSeverity r' w' f).score := by
  have h1 := normalizeRainfall_mono hr
  have h2 := normalizeWindSpeed_mono hw
  simp only [calculateDistrictSeverity, radd_eq, rmul_eq, rdiv_eq, jsMax_eq,
    jsMin_eq, jsRound, ratFloor_eq]
  gcongr

end Severity

/-- C4 counterexample: at rainfall 500, wind 200, flooding high, the
weighted sum is 0.4·10 + 0.3·10 + 0.3·9 = 9.7, so
`calculateDistrictSeverity` returns score 9.7, not the claimed 10.0. -/
theorem claim_C4_counterexample :
    (Severity.calculateDistrictSeverity 500 200 .high).score = mkRat 97 10 ∧
    (Severity.calculateDistrictSeverity 500 200 .high).score ≠ 10 := by
  decide

/-- C4 (amended): `calculateDistrictSeverity(rainfall=500, wind=200,
floodingRisk=high)` returns exactly score 9.7 (not 10.0) with color red and
level high, per the weighted sum 0.4·rainfall_norm + 0.3·wind_norm +
0.3·flooding_score where the high flooding score is 9. -/
theorem claim_C4_amended :
    Severity.calculateDistrictSeverity 500 200 .high =
      { score := mkRat 97 10
        color := Severity.SeverityColor.red
        level := Severity.RiskLevel.high } := by
  decide

/-- C8: the severity score is jointly monotone in rainfall and wind speed
over all rational inputs (negative and above-domain included) with the
flooding risk held fixed; in particular it is non-decreasing in each
argument separately. -/
theorem claim_C8_severity_monotone (r r' w w' : Rat)
    (f : Severity.RiskLevel) (hr : r ≤ r') (hw : w ≤ w') :
    (Severity.calculateDistrictSeverity r w f).score ≤
      (Severity.calculateDistrictSeverity r' w' f).score :=
  Severity.severity_score_monotone r r' w w' f hr hw

/-- C8 witness: the monotonicity theorem instantiated at rainfall 1 ≤ 480
and wind 3 ≤ 3 with flooding low. -/
theorem claim_C8_witness :
    (1 : Rat) ≤ 480 ∧ (3 : Rat) ≤ 3 ∧
    (Severity.calculateDistrictSeverity 1 3 .low).score ≤
      (Severity.calculateDistrictSeverity 480 3 .low).score :=
  ⟨by decide, by decide,
    claim_C8_severity_monotone 1 480 3 3 .low (by decide) (by decide)⟩

/-! ## Cache manager (`src/services/cache/manager.ts`, `CacheManager`) -/

namespace CacheM

structure CacheEntry (α : Type) where
  data : α
  timestamp : Int
  ttl : Int
deriving DecidableEq, Repr

/-- The in-memory cache `Map`. -/
abbrev Cache (α : Type) := List (String × CacheEntry α)

/-- `CacheManager.isValid`: the entry exists and `now - timestamp < ttl`. -/
def isValid {α : Type} (c : Cache α) (key : String) (now : Int) : Bool :=
  match alookup c key with
  | none => false
  | some e => now - e.timestamp < e.ttl

/-- `CacheManager.get`: null on absence; an expired entry is deleted and
null returned; otherwise the entry itself.  Returns the possibly-updated
cache alongside the result. -/
def get {α : Type} (c : Cache α) (key : String) (now : Int) :
    Option (CacheEntry α) × Cache α :=
  match alookup c key with
  | none => (none, c)
  | some e => if isValid c key now then (some e, c) else (none, adel c key)

/-- `CacheManager.set`: unconditional overwrite, fetch time reset to `now`. -/
def set {α : Type} (c : Cache α) (key : String) (data : α) (ttl : Int)
    (now : Int) : Cache α :=
  aset c key { data := data, timestamp := now, ttl := ttl }

end CacheM

/-- C7: a value stored by `set(key, value, T)` at time `t0` is returned
unchanged by `get(key)` at any access time with age `t - t0 < T`, and at
any access time with age `≥ T` the entry is treated as absent: `get`
returns null and the entry is evicted from the cache. -/
theorem claim_C7_cache_ttl {α : Type} (c : CacheM.Cache α) (key : String)
    (v : α) (T t0 t : Int) :
    (t - t0 < T →
      (CacheM.get (CacheM.set c key v T t0) key t).1 =
        some { data := v, timestamp := t0, ttl := T }) ∧
    (T ≤ t - t0 →
      (CacheM.get (CacheM.set c key v T t0) key t).1 = none ∧
      alookup (CacheM.get (CacheM.set c key v T t0) key t).2 key = none) := by
  have hl : alookup (CacheM.set c key v T t0) key =
      some { data := v, timestamp := t0, ttl := T } :=
    alookup_aset_self c key _
  constructor
  · intro h
    simp [CacheM.get, CacheM.isValid, hl, h]
  · intro h
    have hnv : ¬ (t - t0 < T) := not_lt.mpr h
    simp [CacheM.get, CacheM.isValid, hl, hnv, alookup_adel_self]

/-- C7 witness: a value cached at time 0 with TTL 5 is present at time 3
and absent (and evicted) at time 5. -/
theorem claim_C7_witness :
    ((3:Int) - 0 < 5 ∧
      (CacheM.get (CacheM.set ([] : CacheM.Cache Int) "cyclone" 42 5 0)
        "cyclone" 3).1 = some { data := 42, timestamp := 0, ttl := 5 }) ∧
    ((5:Int) ≤ 5 - 0 ∧
      (CacheM.get (CacheM.set ([] : CacheM.Cache Int) "cyclone" 42 5 0)
        "cyclone" 5).1 = none) :=
  ⟨⟨by decide, (claim_C7_cache_ttl [] "cyclone" 42 5 0 3).1 (by decide)⟩,
   ⟨by decide, ((claim_C7_cache_ttl [] "cyclone" 42 5 0 5).2 (by decide)).1⟩⟩

/-! ## Rate limiter (`src/services/cache/manager.ts`, `RateLimiter`)

`RATE_LIMIT_CONFIG` is 12 requests per trailing hour per endpoint. -/

namespace RateLimit

structure RateLimiter where
  requests : List (String × List Int)
  maxRequests : Nat
  windowMs : Int
deriving DecidableEq, Repr

/-- `new RateLimiter()` with the `RATE_LIMIT_CONFIG` defaults. -/
def mkDefault : RateLimiter := { requests := [], maxRequests := 12, windowMs := 3600000 }

/-- `cleanupOldRequests`: drop records with `now - timestamp ≥ windowMs`;
delete the endpoint entry entirely when nothing survives. -/
def cleanupOldRequests (rl : RateLimiter) (endpoint : String) (now : Int) :
    RateLimiter :=
  match alookup rl.requests endpoint with
  | none => rl
  | some l =>
    let valid := l.filter (fun t => now - t < rl.windowMs)
    if valid.length = 0 then
      { rl with requests := adel rl.requests endpoint }
    else
      { rl with requests := aset rl.requests endpoint valid }

/-- `canMakeRequest`: after pruning, fewer than `maxRequests` records
remain.  Returns the pruned state alongside the answer. -/
def canMakeRequest (rl : RateLimiter) (endpoint : String) (now : Int) :
    Bool × RateLimiter :=
  let rl1 := cleanupOldRequests rl endpoint now
  (decide (((alookup rl1.requests endpoint).getD []).length < rl1.maxRequests), rl1)

/-- `recordRequest`: prune, then append the current timestamp. -/
def recordRequest (rl : RateLimiter) (endpoint : String) (now : Int) :
    RateLimiter :=
  let rl1 := cleanupOldRequests rl endpoint now
  let appended := ((alookup rl1.requests endpoint).getD []) ++ [now]
  { rl1 with requests := aset rl1.requests endpoint appended }

/-- `getRemainingRequests`: `Math.max(0, maxRequests - windowCount)`. -/
def getRemainingRequests (rl : RateLimiter) (endpoint : String) (now : Int) :
    Int × RateLimiter :=
  let rl1 := cleanupOldRequests rl endpoint now
  (max 0 ((rl1.maxRequests : Int) -
    ((alookup rl1.requests endpoint).getD []).length), rl1)

/-- `getTimeUntilNextRequest`: 0 under the limit, else time until the
request at index 0 ages out.  When the list is empty but the limit is
already 0 the source dereferences `undefined` and the error handler
throws, modelled by `.error`. -/
def getTimeUntilNextRequest (rl : RateLimiter) (endpoint : String)
    (now : Int) : Except Unit Int × RateLimiter :=
  let rl1 := cleanupOldRequests rl endpoint now
  let l := (alookup rl1.requests endpoint).getD []
  if l.length < rl1.maxRequests then (.ok 0, rl1)
  else
    match l.head? with
    | some t => (.ok (max 0 (t + rl1.windowMs - now)), rl1)
    | none => (.error (), rl1)

end RateLimit

namespace RateLimit

theorem cleanup_maxRequests (rl : RateLimiter) (ep : String) (now : Int) :
    (cleanupOldRequests rl ep now).maxRequests = rl.maxRequests := by
  unfold cleanupOldRequests
  rcases alookup rl.requests ep with _ | l
  · rfl
  · by_cases hz : (l.filter (fun t => now - t < rl.windowMs)).length = 0
    · simp [hz]
    · simp [hz]

theorem cleanup_windowMs (rl : RateLimiter) (ep : String) (now : Int) :
    (cleanupOldRequests rl ep now).windowMs = rl.windowMs := by
  unfold cleanupOldRequests
  rcases alookup rl.requests ep with _ | l
  · rfl
  · by_cases hz : (l.filter (fun t => now - t < rl.windowMs)).length = 0
    · simp [hz]
    · simp [hz]

theorem cleanup_lookup (rl : RateLimiter) (ep : String) (now : Int)
    (l : List Int) (h : alookup rl.requests ep = some l) :
    alookup (cleanupOldRequests rl ep now).requests ep =
      if (l.filter (fun t => now - t < rl.windowMs)).length = 0 then none
      else some (l.filter (fun t => now - t < rl.windowMs)) := by
  unfold cleanupOldRequests
  rw [h]
  by_cases hz : (l.filter (fun t => now - t < rl.windowMs)).length = 0
  · simp only [hz, if_pos rfl]
    simpa using alookup_adel_self rl.requests ep
  · simp only [if_neg hz]
    simpa [hz] using alookup_aset_self rl.requests ep _

end RateLimit

/-- C6: for the default limiter (12 per hour), with `l` the recorded
timestamps of an endpoint: `canMakeRequest` is false iff at least 12 of
them are inside the trailing hour; if all recorded requests lie inside
the window this is `12 ≤ l.length`; requests that have aged out of the
window are pruned from the stored state; and `getRemainingRequests`
returns `max 0 (12 - in-window count)`. -/
theorem claim_C6_rate_limit (reqs : List (String × List Int))
    (endpoint : String) (now : Int) (l : List Int)
    (h : alookup reqs endpoint = some l) :
    ((RateLimit.canMakeRequest ⟨reqs, 12, 3600000⟩ endpoint now).1 = false ↔
      12 ≤ (l.filter (fun t => now - t < 3600000)).length) ∧
    ((∀ t ∈ l, now - t < 3600000) →
      ((RateLimit.canMakeRequest ⟨reqs, 12, 3600000⟩ endpoint now).1 = false ↔
        12 ≤ l.length)) ∧
    (alookup (RateLimit.canMakeRequest ⟨reqs, 12, 3600000⟩ endpoint now).2.requests
        endpoint =
      if (l.filter (fun t => now - t < 3600000)).length = 0 then none
      else some (l.filter (fun t => now - t < 3600000))) ∧
    ((RateLimit.getRemainingRequests ⟨reqs, 12, 3600000⟩ endpoint now).1 =
      max 0 (12 - ((l.filter (fun t => now - t < 3600000)).length : Int))) := by
  have hmax := RateLimit.cleanup_maxRequests ⟨reqs, 12, 3600000⟩ endpoint now
  have hwin := RateLimit.cleanup_windowMs ⟨reqs, 12, 3600000⟩ endpoint now
  have hlk := RateLimit.cleanup_lookup ⟨reqs, 12, 3600000⟩ endpoint now l h
  have hcount :
      (((alookup (RateLimit.cleanupOldRequests ⟨reqs, 12, 3600000⟩ endpoint now).requests
        endpoint).getD []).length) =
      (l.filter (fun t => now - t < 3600000)).length := by
    rw [hlk]
    by_cases hz : (l.filter (fun t => now - t < 3600000)).length = 0
    · simp [hz]
    · simp [hz]
  refine ⟨?_, ?_, ?_, ?_⟩
  · simp only [RateLimit.canMakeRequest, hmax, hcount]
    simp [not_lt]
  · intro hall
    have hfl : l.filter (fun t => now - t < 3600000) = l :=
      List.filter_eq_self.mpr (fun t ht => by simpa using hall t ht)
    simp only [RateLimit.canMakeRequest, hmax, hcount, hfl]
    simp [not_lt]
  · simpa only [RateLimit.canMakeRequest] using hlk
  · simp only [RateLimit.getRemainingRequests, hmax, hcount]
    norm_num

/-- C6 witness: with 12 in-window requests recorded, `canMakeRequest` is
false; after the clock advances past one hour from the oldest record the
pruned state drops it and `getRemainingRequests` rises accordingly. -/
theorem claim_C6_witness :
    (alookup [("cyclone", List.replicate 12 (5 : Int))] "cyclone" =
      some (List.replicate 12 (5 : Int))) ∧
    ((RateLimit.canMakeRequest ⟨[("cyclone", List.replicate 12 (5 : Int))], 12,
        3600000⟩ "cyclone" 10).1 = false ↔
      12 ≤ ((List.replicate 12 (5 : Int)).filter
        (fun t => (10 : Int) - t < 3600000)).length) :=
  ⟨by decide,
    (claim_C6_rate_limit [("cyclone", List.replicate 12 (5 : Int))] "cyclone" 10
      (List.replicate 12 (5 : Int)) (by decide)).1⟩

namespace RateLimit

/-- The public operations of the limiter, as state transformers. -/
inductive RLStep
  | can (ep : String)
  | record (ep : String)
  | remaining (ep : String)
  | timeUntil (ep : String)
  | resetOne (ep : String)
  | resetAll

/-- Effect of one public call on the limiter state at time `now`. -/
def applyStep (rl : RateLimiter) (now : Int) : RLStep → RateLimiter
  | .can ep => (canMakeRequest rl ep now).2
  | .record ep => recordRequest rl ep now
  | .remaining ep => (getRemainingRequests rl ep now).2
  | .timeUntil ep => (getTimeUntilNextRequest rl ep now).2
  | .resetOne ep => { rl with requests := adel rl.requests ep }
  | .resetAll => { rl with requests := [] }

/-- States reachable from `new RateLimiter()` under a non-decreasing clock. -/
inductive Reachable : RateLimiter → Int → Prop
  | init (now : Int) : Reachable mkDefault now
  | step {rl : RateLimiter} {now : Int} (s : RLStep) (now' : Int)
      (h : Reachable rl now) (hle : now ≤ now') :
      Reachable (applyStep rl now' s) now'

/-- Invariant: every endpoint's request list is ascending and bounded by
the current clock. -/
def TimesOrdered (rl : RateLimiter) (now : Int) : Prop :=
  ∀ ep l, alookup rl.requests ep = some l →
    l.Sorted (· ≤ ·) ∧ ∀ t ∈ l, t ≤ now

theorem timesOrdered_mono {rl : RateLimiter} {now now' : Int}
    (h : TimesOrdered rl now) (hle : now ≤ now') : TimesOrdered rl now' :=
  fun ep l hl => ⟨(h ep l hl).1, fun t ht => le_trans ((h ep l hl).2 t ht) hle⟩

theorem timesOrdered_cleanup {rl : RateLimiter} {now : Int} (ep : String)
    (h : TimesOrdered rl now) :
    TimesOrdered (cleanupOldRequests rl ep now) now := by
  intro ep' l' hl'
  unfold cleanupOldRequests at hl'
  rcases hL : alookup rl.requests ep with _ | l
  · rw [hL] at hl'
    exact h ep' l' hl'
  · rw [hL] at hl'
    dsimp only at hl'
    by_cases hz : (l.filter (fun t => now - t < rl.windowMs)).length = 0
    · rw [if_pos hz] at hl'
      by_cases hep : ep' = ep
      · subst hep
        rw [alookup_adel_self] at hl'
        exact absurd hl' (by simp)
      · rw [alookup_adel_ne _ _ _ hep] at hl'
        exact h ep' l' hl'
    · rw [if_neg hz] at hl'
      by_cases hep : ep' = ep
      · subst hep
        rw [alookup_aset_self] at hl'
        rcases Option.some_inj.mp hl' with rfl
        refine ⟨List.Pairwise.sublist (List.filter_sublist l) (h ep' l hL).1, ?_⟩
        intro t ht
        exact (h ep' l hL).2 t (List.mem_of_mem_filter ht)
      · rw [alookup_aset_ne _ _ _ _ hep] at hl'
        exact h ep' l' hl'

theorem timesOrdered_record {rl : RateLimiter} {now : Int} (ep : String)
    (h : TimesOrdered rl now) :
    TimesOrdered (recordRequest rl ep now) now := by
  have hc := timesOrdered_cleanup ep h
  intro ep' l' hl'
  unfold recordRequest at hl'
  dsimp only at hl'
  by_cases hep : ep' = ep
  · subst hep
    rw [alookup_aset_self] at hl'
    rcases Option.some_inj.mp hl' with rfl
    rcases hL : alookup (cleanupOldRequests rl ep' now).requests ep' with _ | v
    · simp
    · have hv := hc ep' v hL
      simp only [Option.getD_some]
      constructor
      · refine (List.pairwise_append).mpr ⟨hv.1, by simp, ?_⟩
        intro a ha b hb
        rcases List.mem_singleton.mp hb with rfl
        exact hv.2 a ha
      · intro t ht
        rcases List.mem_append.mp ht with hta | htb
        · exact hv.2 t hta
        · rcases List.mem_singleton.mp htb with rfl
          exact le_refl _
  · rw [alookup_aset_ne _ _ _ _ hep] at hl'
    exact hc ep' l' hl'

theorem timeUntil_state (rl : RateLimiter) (ep : String) (now : Int) :
    (getTimeUntilNextRequest rl ep now).2 = cleanupOldRequests rl ep now := by
  unfold getTimeUntilNextRequest
  dsimp only
  split
  · rfl
  · split <;> rfl

end RateLimit

/-- C10: every reachable rate-limiter state (under a non-decreasing
clock) keeps each endpoint's request list sorted in ascending timestamp
order and bounded by the clock, so the element at index 0 — the one
`getTimeUntilNextRequest` reads — is always the oldest in-window request. -/
theorem claim_C10_window_ordering (rl : RateLimit.RateLimiter) (now : Int)
    (h : RateLimit.Reachable rl now) :
    RateLimit.TimesOrdered rl now ∧
    ∀ ep l, alookup rl.requests ep = some l →
      ∀ h0 ∈ l.head?, ∀ t ∈ l, h0 ≤ t := by
  have hmain : RateLimit.TimesOrdered rl now := by
    induction h with
    | init now => intro ep l hl; exact absurd hl (by simp [RateLimit.mkDefault, alookup])
    | step s now' hr hle ih =>
      have ih' := RateLimit.timesOrdered_mono ih hle
      rcases s with ep | ep | ep | ep | ep | _
      · exact RateLimit.timesOrdered_cleanup ep ih'
      · exact RateLimit.timesOrdered_record ep ih'
      · exact RateLimit.timesOrdered_cleanup ep ih'
      · rw [RateLimit.applyStep, RateLimit.timeUntil_state]
        exact RateLimit.timesOrdered_cleanup ep ih'
      · intro ep' l' hl'
        by_cases hep : ep' = ep
        · subst hep
          rw [RateLimit.applyStep] at hl'
          dsimp only at hl'
          rw [alookup_adel_self] at hl'
          exact absurd hl' (by simp)
        · rw [RateLimit.applyStep] at hl'
          dsimp only at hl'
          rw [alookup_adel_ne _ _ _ hep] at hl'
          exact ih' ep' l' hl'
      · intro ep' l' hl'
        rw [RateLimit.applyStep] at hl'
        dsimp only at hl'
        exact absurd hl' (by simp [alookup])
  refine ⟨hmain, ?_⟩
  intro ep l hl h0 hh0 t ht
  have hs := (hmain ep l hl).1
  rcases l with _ | ⟨a, tl⟩
  · simp at hh0
  · rcases Option.mem_some_iff.mp (by simpa using hh0) with rfl
    rcases List.mem_cons.mp ht with rfl | htl
    · exact le_refl _
    · exact (List.pairwise_cons.mp hs).1 t htl

/-- C10 witness: after recording requests at times 5 and 7 the stored list
for the endpoint is `[5, 7]`, and the ordering theorem applies to it. -/
theorem claim_C10_witness :
    alookup (RateLimit.applyStep (RateLimit.applyStep RateLimit.mkDefault 5
      (.record "x")) 7 (.record "x")).requests "x" = some [5, 7] ∧
    (5 : Int) ≤ 7 := by
  have hreach : RateLimit.Reachable
      (RateLimit.applyStep (RateLimit.applyStep RateLimit.mkDefault 5
        (.record "x")) 7 (.record "x")) 7 :=
    RateLimit.Reachable.step (.record "x") 7
      (RateLimit.Reachable.step (.record "x") 5 (RateLimit.Reachable.init 5)
        (le_refl 5))
      (by decide)
  have h2 := (claim_C10_window_ordering _ 7 hreach).2 "x" [5, 7] (by decide)
  exact ⟨by decide, h2 5 rfl 7 (by decide)⟩

/-! ## Access layer (`src/contexts/DataContext.tsx`,
`fetchWithCacheAndRateLimit`) -/

namespace Access

inductive FetchResult (α : Type)
  | value (v : α)
  | nullv
  | thrown
deriving DecidableEq, Repr

/-- `fetchWithCacheAndRateLimit`, with the transport call's outcome made an
explicit parameter.  Mirrors the source flow: the initial
`cacheManager.get`, the `cached && cacheManager.isValid` early return, the
rate-limit check returning `cached?.data || null`, the fetch with
`recordRequest` and `cacheManager.set` on success, and the catch block
that re-reads the cache and rethrows when it finds nothing.
(`cached?.data || null` collapses falsy data to null in JS; data is opaque
here so that branch is modelled as returning the data.) -/
def fetchWithCacheAndRateLimit {α : Type} (cache : CacheM.Cache α)
    (rl : RateLimit.RateLimiter) (endpoint : String) (ttl : Int)
    (now : Int) (transport : Except Unit α) :
    FetchResult α × CacheM.Cache α × RateLimit.RateLimiter :=
  let res := CacheM.get cache endpoint now
  let cached := res.1
  let cache1 := res.2
  if cached.isSome ∧ CacheM.isValid cache1 endpoint now then
    ((cached.map (fun e => FetchResult.value e.data)).getD .nullv, cache1, rl)
  else
    let can := RateLimit.canMakeRequest rl endpoint now
    let rl1 := can.2
    if can.1 = false then
      ((cached.map (fun e => FetchResult.value e.data)).getD .nullv, cache1, rl1)
    else
      match transport with
      | .ok data =>
        let rl2 := RateLimit.recordRequest rl1 endpoint now
        let cache2 := CacheM.set cache1 endpoint data ttl now
        (.value data, cache2, rl2)
      | .error _ =>
        let res2 := CacheM.get cache1 endpoint now
        match res2.1 with
        | some e => (.value e.data, res2.2, rl1)
        | none => (.thrown, res2.2, rl1)

end Access

/-- C1: the serve-stale claim fails on the code.  With an expired cache
entry (data 42, stored at 0 with TTL 300000, accessed at 3600000) the
initial `cacheManager.get` self-evicts the entry, so when the rate limiter
denies the request the function returns null — not the stale 42 — and when
the transport fails the catch-block re-read finds nothing and the failure
propagates instead of returning the stale 42. -/
theorem claim_C1_code_bug :
    (Access.fetchWithCacheAndRateLimit
      [("cyclone", { data := (42 : Int), timestamp := 0, ttl := 300000 })]
      { requests := [("cyclone", List.replicate 12 (3599000 : Int))],
        maxRequests := 12, windowMs := 3600000 }
      "cyclone" 300000 3600000 (.ok 7)).1 = .nullv ∧
    (Access.fetchWithCacheAndRateLimit
      [("cyclone", { data := (42 : Int), timestamp := 0, ttl := 300000 })]
      RateLimit.mkDefault "cyclone" 300000 3600000 (.error ())).1 =
      .thrown := by
  decide

/-! ## Retrying HTTP access (`src/services/api/client.ts`, `APIClient`)

`fetchWithRetry` is modelled over a transport oracle `tr : Nat → Outcome α`
giving the result of the n-th attempt.  Two asynchronous subtleties of the
source are reflected here:
* `handleHTTPError` is returned from inside the `try` without `await`, so
  its rejection (the 4xx / exhausted-5xx `DashboardError`) bypasses the
  `catch` and is never passed to `handleFetchError`;
* `validateResponse` throws synchronously inside the `try`, so a
  null/undefined body lands in `handleFetchError`, which retries every
  error it receives whenever the retry budget is not exhausted.
The `budget` parameter is `maxRetries - retryCount`; the source guard
`retryCount < maxRetries` is `budget > 0`. -/

namespace Retry

inductive Outcome (α : Type)
  | netFail
  | resp (status : Nat) (body : Option α)
deriving DecidableEq, Repr

inductive DErr
  | apiError (status : Nat)
  | networkError
deriving DecidableEq, Repr

/-- `DEFAULT_RETRY_CONFIG.maxRetries`. -/
def maxRetries : Nat := 3

/-- One `fetchWithRetry` invocation at attempt index `attempt` with
`budget` retries left.  Returns the outcome and the number of transport
attempts consumed. -/
def fetchAttempts {α : Type} (tr : Nat → Outcome α) :
    Nat → Nat → Except DErr α × Nat
  | budget, attempt =>
    match tr attempt with
    | .netFail =>
      match budget with
      | Nat.succ b =>
        let r := fetchAttempts tr b (attempt + 1)
        (r.1, r.2 + 1)
      | 0 => (.error .networkError, 1)
    | .resp status body =>
      if 200 ≤ status ∧ status ≤ 299 then
        match body with
        | some v => (.ok v, 1)
        | none =>
          match budget with
          | Nat.succ b =>
            let r := fetchAttempts tr b (attempt + 1)
            (r.1, r.2 + 1)
          | 0 => (.error .networkError, 1)
      else
        if 500 ≤ status ∧ status ≤ 599 then
          match budget with
          | Nat.succ b =>
            let r := fetchAttempts tr b (attempt + 1)
            (r.1, r.2 + 1)
          | 0 => (.error (.apiError status), 1)
        else (.error (.apiError status), 1)

/-- `fetchWithRetry(endpoint)`: retryCount starts at 0. -/
def fetchWithRetry {α : Type} (tr : Nat → Outcome α) : Except DErr α × Nat :=
  fetchAttempts tr maxRetries 0

end Retry

/-- C2 counterexample: a structurally invalid (null) body on an HTTP 200
response does not fail on the first attempt: the operation performs 4
transport attempts (initial + 3 retries) and then surfaces a
network-type failure. -/
theorem claim_C2_counterexample :
    (Retry.fetchWithRetry (fun _ => Retry.Outcome.resp 200 (none : Option Int))).2 = 4 ∧
    (Retry.fetchWithRetry (fun _ => Retry.Outcome.resp 200 (none : Option Int))).2 ≠ 1 ∧
    (Retry.fetchWithRetry (fun _ => Retry.Outcome.resp 200 (none : Option Int))).1 =
      .error .networkError := by
  decide

namespace Retry

theorem fetchAttempts_netFail {α : Type} (tr : Nat → Outcome α)
    (h : ∀ i, tr i = Outcome.netFail) :
    ∀ b a, fetchAttempts tr b a = (.error .networkError, b + 1) := by
  intro b
  induction b with
  | zero =>
    intro a
    simp only [fetchAttempts, h a]
  | succ n ih =>
    intro a
    simp only [fetchAttempts, h a, ih (a + 1)]

theorem fetchAttempts_nullBody {α : Type} (tr : Nat → Outcome α) (s : Nat)
    (hs1 : 200 ≤ s) (hs2 : s ≤ 299) (h : ∀ i, tr i = Outcome.resp s none) :
    ∀ b a, fetchAttempts tr b a = (.error .networkError, b + 1) := by
  intro b
  induction b with
  | zero =>
    intro a
    simp only [fetchAttempts, h a]
    rw [if_pos ⟨hs1, hs2⟩]
  | succ n ih =>
    intro a
    simp only [fetchAttempts, h a, ih (a + 1)]
    rw [if_pos ⟨hs1, hs2⟩]

theorem fetchAttempts_serverError {α : Type} (tr : Nat → Outcome α) (s : Nat)
    (hs1 : 500 ≤ s) (hs2 : s ≤ 599) (h : ∀ i, tr i = Outcome.resp s none) :
    ∀ b a, fetchAttempts tr b a = (.error (.apiError s), b + 1) := by
  intro b
  induction b with
  | zero =>
    intro a
    simp only [fetchAttempts, h a]
    rw [if_neg (by omega : ¬ (200 ≤ s ∧ s ≤ 299)), if_pos ⟨hs1, hs2⟩]
  | succ n ih =>
    intro a
    simp only [fetchAttempts, h a, ih (a + 1)]
    rw [if_neg (by omega : ¬ (200 ≤ s ∧ s ≤ 299)), if_pos ⟨hs1, hs2⟩]

end Retry

/-- C2 (amended): an HTTP 4xx response fails on the first attempt with an
API error and is never retried (the rejected promise returned from inside
the `try` bypasses the catch); a well-formed 2xx response succeeds on the
first attempt; but a structurally invalid (null/undefined) 2xx body is
caught by the generic fetch-error handler and retried like a network
failure: network failures, 5xx responses and null-body responses are each
retried up to the retry budget of 3 (4 transport attempts in total),
after which null bodies and network failures surface as network errors
and 5xx as an API error. -/
theorem claim_C2_amended {α : Type} (tr : Nat → Retry.Outcome α) :
    (∀ s body, 400 ≤ s → s ≤ 499 → tr 0 = .resp s body →
      Retry.fetchWithRetry tr = (.error (.apiError s), 1)) ∧
    (∀ s v, 200 ≤ s → s ≤ 299 → tr 0 = .resp s (some v) →
      Retry.fetchWithRetry tr = (.ok v, 1)) ∧
    ((∀ i, tr i = .netFail) →
      Retry.fetchWithRetry tr = (.error .networkError, 4)) ∧
    (∀ s, 500 ≤ s → s ≤ 599 → (∀ i, tr i = .resp s none) →
      Retry.fetchWithRetry tr = (.error (.apiError s), 4)) ∧
    (∀ s, 200 ≤ s → s ≤ 299 → (∀ i, tr i = .resp s none) →
      Retry.fetchWithRetry tr = (.error .networkError, 4)) := by
  refine ⟨?_, ?_, ?_, ?_, ?_⟩
  · intro s body h1 h2 h0
    show Retry.fetchAttempts tr 3 0 = _
    rw [Retry.fetchAttempts, h0]
    dsimp only
    rw [if_neg (by omega : ¬ (200 ≤ s ∧ s ≤ 299)),
      if_neg (by omega : ¬ (500 ≤ s ∧ s ≤ 599))]
  · intro s v h1 h2 h0
    show Retry.fetchAttempts tr 3 0 = _
    rw [Retry.fetchAttempts, h0]
    dsimp only
    rw [if_pos ⟨h1, h2⟩]
  · intro h
    exact Retry.fetchAttempts_netFail tr h 3 0
  · intro s h1 h2 h
    exact Retry.fetchAttempts_serverError tr s h1 h2 h 3 0
  · intro s h1 h2 h
    exact Retry.fetchAttempts_nullBody tr s h1 h2 h 3 0

/-- C2 witness: the amended theorem applied to a transport that answers
HTTP 404 — the operation fails after exactly one attempt. -/
theorem claim_C2_witness :
    ((400 : Nat) ≤ 404 ∧ (404 : Nat) ≤ 499) ∧
    Retry.fetchWithRetry (fun _ => Retry.Outcome.resp 404 (none : Option Int)) =
      (.error (.apiError 404), 1) :=
  ⟨by decide, (claim_C2_amended _).1 404 none (by decide) (by decide) rfl⟩

/-! ## Persistent store (`src/services/storage/manager.ts`, `StorageManager`)

`localStorage` is modelled as one slot per `STORAGE_KEYS` member.  A slot
holds either a string that parses to the `StoredData` wrapper
`{data, timestamp}` — recorded as `.parsed timestamp len data`, with `len`
the serialized string's character count, used only for sizing — or a
corrupt string on which `JSON.parse` (or the subsequent shape conversion)
throws, recorded as `.junk len`.  A thrown `DashboardError(STORAGE_ERROR)`
is `.error ()`. -/

namespace StorageM

structure SavedRoute where
  id : String
  source : String
  destination : String
  savedAt : Int
deriving DecidableEq, Repr

structure ChecklistState where
  items : List (String × Bool)
  lastUpdated : Int
deriving DecidableEq, Repr

inductive Cell (α : Type)
  | parsed (timestamp : Int) (len : Nat) (data : α)
  | junk (len : Nat)
deriving DecidableEq, Repr

/-- The four `STORAGE_KEYS` slots. -/
structure Store where
  lastCyclone : Option (Cell String)
  savedRoutes : Option (Cell (List SavedRoute))
  checklist : Option (Cell ChecklistState)
  language : Option (Cell String)
deriving DecidableEq, Repr

/-- `STORAGE_CONFIG.maxAgeMs`: 30 days. -/
def maxAgeMs : Int := 2592000000

/-- `STORAGE_CONFIG.maxSizeBytes`: 5 MB. -/
def maxSizeBytes : Nat := 5242880

/-- `isExpired`: `Date.now() - timestamp > maxAge`. -/
def isExpired (timestamp now : Int) : Bool := now - timestamp > maxAgeMs

/-- `getSavedRoutes`: absent ⇒ `[]`; expired ⇒ delete and `[]`; corrupt ⇒
the catch calls `handleStorageError`, which rethrows (the `return []`
after it is unreachable). -/
def getSavedRoutes (s : Store) (now : Int) :
    Except Unit (List SavedRoute) × Store :=
  match s.savedRoutes with
  | none => (.ok [], s)
  | some (.junk _) => (.error (), s)
  | some (.parsed ts _ routes) =>
    if isExpired ts now then (.ok [], { s with savedRoutes := none })
    else (.ok routes, s)

/-- `getLastCyclone` (same policy; result `none` is JS `null`). -/
def getLastCyclone (s : Store) (now : Int) :
    Except Unit (Option String) × Store :=
  match s.lastCyclone with
  | none => (.ok none, s)
  | some (.junk _) => (.error (), s)
  | some (.parsed ts _ v) =>
    if isExpired ts now then (.ok none, { s with lastCyclone := none })
    else (.ok (some v), s)

/-- `getChecklistState` (default is `{items: {}, lastUpdated: new Date()}`). -/
def getChecklistState (s : Store) (now : Int) :
    Except Unit ChecklistState × Store :=
  match s.checklist with
  | none => (.ok { items := [], lastUpdated := now }, s)
  | some (.junk _) => (.error (), s)
  | some (.parsed ts _ c) =>
    if isExpired ts now then
      (.ok { items := [], lastUpdated := now }, { s with checklist := none })
    else (.ok c, s)

/-- `getLanguagePreference`: never expires. -/
def getLanguagePreference (s : Store) : Except Unit (Option String) × Store :=
  match s.language with
  | none => (.ok none, s)
  | some (.junk _) => (.error (), s)
  | some (.parsed _ _ v) => (.ok (some v), s)

def cellLen {α : Type} : Cell α → Nat
  | .parsed _ len _ => len
  | .junk len => len

def optLen {α : Type} : Option (Cell α) → Nat
  | none => 0
  | some c => cellLen c

/-- `getStorageSize`: `item.length * 2` summed over the four keys. -/
def getStorageSize (s : Store) : Nat :=
  optLen s.lastCyclone * 2 + optLen s.savedRoutes * 2 +
    optLen s.checklist * 2 + optLen s.language * 2

inductive SKey
  | lastCyclone
  | savedRoutes
  | checklist
  | language
deriving DecidableEq, Repr

/-- One element of the `items` array built by `manageStorageQuota`. -/
structure QItem where
  key : SKey
  timestamp : Int
  size : Nat
deriving DecidableEq, Repr

/-- `localStorage.removeItem` on one of the four keys. -/
def removeKey (s : Store) : SKey → Store
  | .lastCyclone => { s with lastCyclone := none }
  | .savedRoutes => { s with savedRoutes := none }
  | .checklist => { s with checklist := none }
  | .language => { s with language := none }

/-- The collection pass of `manageStorageQuota` also deletes corrupt
non-exempt records outright. -/
def dropJunk (s : Store) : Store :=
  { s with
    lastCyclone := match s.lastCyclone with
      | some (.junk _) => none
      | c => c
    savedRoutes := match s.savedRoutes with
      | some (.junk _) => none
      | c => c
    checklist := match s.checklist with
      | some (.junk _) => none
      | c => c }

def cellItem {α : Type} (k : SKey) : Option (Cell α) → List QItem
  | some (.parsed ts len _) => [{ key := k, timestamp := ts, size := len * 2 }]
  | _ => []

/-- The `items` array: non-exempt parseable records with timestamp and
size, in `STORAGE_KEYS` order (the language preference is skipped). -/
def itemsOf (s : Store) : List QItem :=
  cellItem SKey.lastCyclone s.lastCyclone ++
    cellItem SKey.savedRoutes s.savedRoutes ++
    cellItem SKey.checklist s.checklist

/-- `items.sort((a, b) => a.timestamp - b.timestamp)`: a stable ascending
sort by timestamp. -/
def sortByTs (items : List QItem) : List QItem :=
  List.insertionSort (fun a b => a.timestamp ≤ b.timestamp) items

/-- The removal loop: `if (currentSize - removedSize <= maxSizeBytes)
break; localStorage.removeItem(item.key); removedSize += item.size`. -/
def evictLoop (currentSize : Int) : Int → List QItem → List SKey
  | _, [] => []
  | removedSize, it :: rest =>
    if currentSize - removedSize ≤ (maxSizeBytes : Int) then []
    else it.key :: evictLoop currentSize (removedSize + (it.size : Int)) rest

/-- `manageStorageQuota`. -/
def manageStorageQuota (s : Store) : Store :=
  if getStorageSize s > maxSizeBytes then
    let toRemove :=
      evictLoop (getStorageSize s) 0 (sortByTs (itemsOf s))
    toRemove.foldl removeKey (dropJunk s)
  else s

/-- `saveRoute`'s route dedupe: replace the first record with a matching
(source, destination) pair, else append. -/
def upsertRoute (routes : List SavedRoute) (route : SavedRoute) :
    List SavedRoute :=
  match routes.findIdx? (fun r =>
      r.source == route.source && r.destination == route.destination) with
  | some i => routes.set i route
  | none => routes ++ [route]

/-- `saveRoute`: read the existing routes (a parse failure rethrows from
the nested handler and escapes), upsert, serialize everything under the
single `cyclone_saved_routes` key (`serLen` is the new string's length),
then run quota management. -/
def saveRoute (s : Store) (route : SavedRoute) (now : Int) (serLen : Nat) :
    Except Unit Store :=
  match getSavedRoutes s now with
  | (.error _, _) => .error ()
  | (.ok routes, s1) =>
    let newRoutes := upsertRoute routes route
    .ok (manageStorageQuota
      { s1 with savedRoutes := some (.parsed now serLen newRoutes) })

end StorageM

/-- C3 counterexample: a stored routes value that fails to parse does not
yield the empty list — `handleStorageError` rethrows a typed
`DashboardError`, so the exception escapes `getSavedRoutes` (the
`return []` after the handler is unreachable). -/
theorem claim_C3_counterexample :
    (StorageM.getSavedRoutes
      { lastCyclone := none, savedRoutes := some (.junk 5),
        checklist := none, language := none } 0).1 = .error () ∧
    (StorageM.getSavedRoutes
      { lastCyclone := none, savedRoutes := some (.junk 5),
        checklist := none, language := none } 0).1 ≠ .ok [] := by
  decide

/-- C3 (amended): reads of absent or expired records return the
empty/default result without throwing (expired records are deleted), but
a stored value that fails to parse makes every getter log and then
rethrow a typed `DashboardError(STORAGE_ERROR)` from `handleStorageError`
— the exception escapes the store's public operations; the
default-returning statements after the handler are unreachable. -/
theorem claim_C3_amended (s : StorageM.Store) (now : Int) :
    (∀ n, s.savedRoutes = some (.junk n) →
      (StorageM.getSavedRoutes s now).1 = .error ()) ∧
    (s.savedRoutes = none → StorageM.getSavedRoutes s now = (.ok [], s)) ∧
    (∀ ts len d, s.savedRoutes = some (.parsed ts len d) →
      StorageM.isExpired ts now = true →
      StorageM.getSavedRoutes s now = (.ok [], { s with savedRoutes := none })) ∧
    (∀ ts len d, s.savedRoutes = some (.parsed ts len d) →
      StorageM.isExpired ts now = false →
      StorageM.getSavedRoutes s now = (.ok d, s)) ∧
    (∀ n, s.lastCyclone = some (.junk n) →
      (StorageM.getLastCyclone s now).1 = .error ()) ∧
    (s.lastCyclone = none → StorageM.getLastCyclone s now = (.ok none, s)) ∧
    (∀ n, s.checklist = some (.junk n) →
      (StorageM.getChecklistState s now).1 = .error ()) ∧
    (s.checklist = none → StorageM.getChecklistState s now =
      (.ok { items := [], lastUpdated := now }, s)) ∧
    (∀ n, s.language = some (.junk n) →
      (StorageM.getLanguagePreference s).1 = .error ()) ∧
    (s.language = none → StorageM.getLanguagePreference s = (.ok none, s)) := by
  refine ⟨?_, ?_, ?_, ?_, ?_, ?_, ?_, ?_, ?_, ?_⟩
  · intro n h
    simp [StorageM.getSavedRoutes, h]
  · intro h
    simp [StorageM.getSavedRoutes, h]
  · intro ts len d h hexp
    simp [StorageM.getSavedRoutes, h, hexp]
  · intro ts len d h hexp
    simp [StorageM.getSavedRoutes, h, hexp]
  · intro n h
    simp [StorageM.getLastCyclone, h]
  · intro h
    simp [StorageM.getLastCyclone, h]
  · intro n h
    simp [StorageM.getChecklistState, h]
  · intro h
    simp [StorageM.getChecklistState, h]
  · intro n h
    simp [StorageM.getLanguagePreference, h]
  · intro h
    simp [StorageM.getLanguagePreference, h]

/-- C3 witness: the amended theorem applied to a store holding a corrupt
routes record and an absent cyclone-id record. -/
theorem claim_C3_witness :
    ((StorageM.Store.mk none (some (.junk 5)) none none).savedRoutes =
      some (.junk 5) ∧
      (StorageM.getSavedRoutes
        (StorageM.Store.mk none (some (.junk 5)) none none) 0).1 =
        .error ()) ∧
    (StorageM.getLastCyclone
      (StorageM.Store.mk none (some (.junk 5)) none none) 0 =
      (.ok none, StorageM.Store.mk none (some (.junk 5)) none none)) :=
  ⟨⟨rfl, (claim_C3_amended (StorageM.Store.mk none (some (.junk 5)) none none)
      0).1 5 rfl⟩,
    ((claim_C3_amended (StorageM.Store.mk none (some (.junk 5)) none none)
      0).2.2.2.2.2.1 rfl)⟩

namespace StorageM

def sizeSum (l : List QItem) : Int := (l.map fun it => (it.size : Int)).sum

def cellMeta {α : Type} : Option (Cell α) → Option (Int × Nat)
  | some (.parsed ts len _) => some (ts, len * 2)
  | _ => none

/-- Timestamp and size of the parseable record under a key, if any. -/
def metaAt (s : Store) : SKey → Option (Int × Nat)
  | .lastCyclone => cellMeta s.lastCyclone
  | .savedRoutes => cellMeta s.savedRoutes
  | .checklist => cellMeta s.checklist
  | .language => cellMeta s.language

/-- No non-exempt slot holds a corrupt record. -/
def NoJunk (s : Store) : Prop :=
  (∀ n, s.lastCyclone ≠ some (.junk n)) ∧
  (∀ n, s.savedRoutes ≠ some (.junk n)) ∧
  (∀ n, s.checklist ≠ some (.junk n))

theorem dropCell_eq {α : Type} (c : Option (Cell α))
    (h : ∀ n, c ≠ some (.junk n)) :
    (match c with | some (.junk _) => none | c => c) = c := by
  rcases c with _ | c
  · rfl
  · rcases c with ⟨ts, len, d⟩ | n
    · rfl
    · exact absurd rfl (h n)

theorem dropJunk_eq (s : Store) (h : NoJunk s) : dropJunk s = s := by
  obtain ⟨h1, h2, h3⟩ := h
  rcases s with ⟨lc, sr, cl, lg⟩
  unfold dropJunk
  simp only [Store.mk.injEq]

theorem cellMeta_some {α : Type} (c : Option (Cell α)) (ts : Int) (sz : Nat)
    (h : cellMeta c = some (ts, sz)) :
    ∃ len d, c = some (.parsed ts len d) ∧ sz = len * 2 := by
  rcases c with _ | c
  · exact absurd h (by simp [cellMeta])
  · rcases c with ⟨ts', len, d⟩ | n
    · rcases (by simpa [cellMeta] using h : ts' = ts ∧ len * 2 = sz) with ⟨rfl, rfl⟩
      exact ⟨len, d, rfl, rfl⟩
    · exact absurd h (by simp [cellMeta])

theorem metaAt_removeKey (s : Store) (k0 k : SKey) :
    metaAt (removeKey s k0) k = if k = k0 then none else metaAt s k := by
  rcases k0 <;> rcases k <;> simp [removeKey, metaAt, cellMeta]

theorem lang_removeKey (s : Store) (k : SKey) (h : k ≠ SKey.language) :
    (removeKey s k).language = s.language := by
  rcases k <;> simp [removeKey] at h ⊢

theorem metaAt_foldl_removeKey :
    ∀ (ks : List SKey) (s0 : Store) (k : SKey),
      metaAt (ks.foldl removeKey s0) k =
        if k ∈ ks then none else metaAt s0 k := by
  intro ks
  induction ks with
  | nil => intro s0 k; simp
  | cons k0 ks ih =>
    intro s0 k
    rw [List.foldl_cons, ih]
    by_cases hmem : k ∈ ks
    · simp [hmem]
    · by_cases hk : k = k0
      · subst hk
        simp [hmem, metaAt_removeKey]
      · simp [hmem, hk, metaAt_removeKey]

theorem lang_foldl_removeKey :
    ∀ (ks : List SKey) (s0 : Store), (∀ k ∈ ks, k ≠ SKey.language) →
      (ks.foldl removeKey s0).language = s0.language := by
  intro ks
  induction ks with
  | nil => intro s0 _; rfl
  | cons k0 ks ih =>
    intro s0 h
    rw [List.foldl_cons, ih _ (fun k hk => h k (List.mem_cons_of_mem _ hk)),
      lang_removeKey _ _ (h k0 (List.mem_cons_self _ _))]

theorem size_removeKey (s : Store) (k : SKey) (ts : Int) (sz : Nat)
    (h : metaAt s k = some (ts, sz)) :
    (getStorageSize (removeKey s k) : Int) = (getStorageSize s : Int) - sz := by
  rcases k with _ | _ | _ | _ <;>
    · obtain ⟨len, d, hc, rfl⟩ := cellMeta_some _ _ _ h
      simp [removeKey, getStorageSize, optLen, cellLen, hc]
      all_goals ring

theorem sizeSum_nil : sizeSum [] = 0 := rfl

theorem sizeSum_cons (it : QItem) (l : List QItem) :
    sizeSum (it :: l) = (it.size : Int) + sizeSum l := by
  simp [sizeSum]

theorem evictLoop_spec (c : Int) :
    ∀ (items : List QItem) (r : Int),
      ∃ n, n ≤ items.length ∧
        evictLoop c r items = (items.take n).map QItem.key ∧
        (∀ m, m < n →
          c - (r + sizeSum (items.take m)) > (maxSizeBytes : Int)) ∧
        (n < items.length →
          c - (r + sizeSum (items.take n)) ≤ (maxSizeBytes : Int)) ∧
        (c - (r + sizeSum items) ≤ (maxSizeBytes : Int) →
          c - (r + sizeSum (items.take n)) ≤ (maxSizeBytes : Int)) := by
  intro items
  induction items with
  | nil =>
    intro r
    refine ⟨0, le_refl 0, rfl, ?_, ?_, ?_⟩
    · intro m hm
      omega
    · intro h
      simp at h
    · intro h
      simpa using h
  | cons it rest ih =>
    intro r
    by_cases hstop : c - r ≤ (maxSizeBytes : Int)
    · refine ⟨0, Nat.zero_le _, ?_, ?_, ?_, ?_⟩
      · unfold evictLoop
        rw [if_pos hstop]
        simp
      · intro m hm
        omega
      · intro _
        simpa [sizeSum_nil] using hstop
      · intro _
        simpa [sizeSum_nil] using hstop
    · obtain ⟨n, hlen, heq, hgt, hlt, hpost⟩ := ih (r + (it.size : Int))
      refine ⟨n + 1, by simpa using Nat.succ_le_succ hlen, ?_, ?_, ?_, ?_⟩
      · unfold evictLoop
        rw [if_neg hstop]
        simp [heq]
      · intro m hm
        rcases m with _ | m'
        · simpa [sizeSum_nil] using lt_of_not_le hstop
        · have := hgt m' (by omega)
          rw [List.take_succ_cons, sizeSum_cons]
          omega
      · intro hlen2
        have := hlt (by simpa using Nat.lt_of_succ_lt_succ hlen2)
        rw [List.take_succ_cons, sizeSum_cons]
        omega
      · intro hcov
        rw [sizeSum_cons] at hcov
        have := hpost (by omega)
        rw [List.take_succ_cons, sizeSum_cons]
        omega

theorem evict_size (c : Int) :
    ∀ (items : List QItem) (r : Int) (s0 : Store),
      (∀ it ∈ items, metaAt s0 it.key = some (it.timestamp, it.size)) →
      ((items.map QItem.key).Nodup) →
      ((getStorageSize s0 : Int) = c - r) →
      (c - (r + sizeSum items) ≤ (maxSizeBytes : Int)) →
      (getStorageSize ((evictLoop c r items).foldl removeKey s0) : Int) ≤
        (maxSizeBytes : Int) := by
  intro items
  induction items with
  | nil =>
    intro r s0 _ _ hinv hcov
    unfold evictLoop
    simpa [sizeSum_nil, hinv] using hcov
  | cons it rest ih =>
    intro r s0 hmeta hnd hinv hcov
    by_cases hstop : c - r ≤ (maxSizeBytes : Int)
    · unfold evictLoop
      rw [if_pos hstop]
      simpa [hinv] using hstop
    · unfold evictLoop
      rw [if_neg hstop]
      rw [List.foldl_cons]
      have hm0 := hmeta it (List.mem_cons_self _ _)
      have hkey : it.key ∉ rest.map QItem.key := by
        have := hnd
        rw [List.map_cons, List.nodup_cons] at this
        exact this.1
      refine ih (r + (it.size : Int)) (removeKey s0 it.key) ?_ ?_ ?_ ?_
      · intro it' hit'
        rw [metaAt_removeKey]
        have hne : it'.key ≠ it.key := by
          intro hk
          exact hkey (hk ▸ List.mem_map_of_mem QItem.key hit')
        rw [if_neg hne]
        exact hmeta it' (List.mem_cons_of_mem _ hit')
      · rw [List.map_cons, List.nodup_cons] at hnd
        exact hnd.2
      · rw [size_removeKey s0 it.key it.timestamp it.size hm0, hinv]
        ring
      · rw [sizeSum_cons] at hcov
        omega

theorem mem_cellItem {α : Type} (k : SKey) (c : Option (Cell α)) (it : QItem)
    (h : it ∈ cellItem k c) :
    it.key = k ∧ cellMeta c = some (it.timestamp, it.size) := by
  rcases c with _ | cc
  · simp [cellItem] at h
  · rcases cc with ⟨ts, len, d⟩ | n
    · rcases (by simpa [cellItem] using h : it = ⟨k, ts, len * 2⟩) with rfl
      simp [cellMeta]
    · simp [cellItem] at h

theorem items_meta (s : Store) (it : QItem) (h : it ∈ itemsOf s) :
    it.key ≠ SKey.language ∧ metaAt s it.key = some (it.timestamp, it.size) := by
  unfold itemsOf at h
  rcases List.mem_append.mp h with h' | h'
  · rcases List.mem_append.mp h' with h'' | h''
    · obtain ⟨hk, hm⟩ := mem_cellItem _ _ _ h''
      rw [hk]
      exact ⟨by simp, hm⟩
    · obtain ⟨hk, hm⟩ := mem_cellItem _ _ _ h''
      rw [hk]
      exact ⟨by simp, hm⟩
  · obtain ⟨hk, hm⟩ := mem_cellItem _ _ _ h'
    rw [hk]
    exact ⟨by simp, hm⟩

theorem meta_items (s : Store) (k : SKey) (ts : Int) (sz : Nat)
    (hk : k ≠ SKey.language) (h : metaAt s k = some (ts, sz)) :
    (⟨k, ts, sz⟩ : QItem) ∈ itemsOf s := by
  rcases k with _ | _ | _ | _
  · obtain ⟨len, d, hc, rfl⟩ := cellMeta_some _ _ _ h
    simp [itemsOf, cellItem, hc]
  · obtain ⟨len, d, hc, rfl⟩ := cellMeta_some _ _ _ h
    simp [itemsOf, cellItem, hc]
  · obtain ⟨len, d, hc, rfl⟩ := cellMeta_some _ _ _ h
    simp [itemsOf, cellItem, hc]
  · exact absurd rfl hk

theorem keys_cellItem {α : Type} (k : SKey) (c : Option (Cell α)) :
    ∀ k' ∈ (cellItem k c).map QItem.key, k' = k := by
  rcases c with _ | cc
  · simp [cellItem]
  · rcases cc with ⟨ts, len, d⟩ | n <;> simp [cellItem]

theorem keys_nodup (s : Store) : ((itemsOf s).map QItem.key).Nodup := by
  rcases s with ⟨lc, sr, cl, lg⟩
  rcases lc with _ | c1 <;> try rcases c1 with ⟨ts1, l1, d1⟩ | n1
  all_goals rcases sr with _ | c2 <;> try rcases c2 with ⟨ts2, l2, d2⟩ | n2
  all_goals rcases cl with _ | c3 <;> try rcases c3 with ⟨ts3, l3, d3⟩ | n3
  all_goals simp [itemsOf, cellItem]

instance : IsTotal QItem (fun a b => a.timestamp ≤ b.timestamp) :=
  ⟨fun a b => Int.le_total a.timestamp b.timestamp⟩

instance : IsTrans QItem (fun a b => a.timestamp ≤ b.timestamp) :=
  ⟨fun _ _ _ h1 h2 => le_trans h1 h2⟩

theorem sortByTs_sorted (items : List QItem) :
    (sortByTs items).Sorted (fun a b => a.timestamp ≤ b.timestamp) :=
  List.sorted_insertionSort _ items

theorem sortByTs_perm (items : List QItem) : List.Perm (sortByTs items) items :=
  List.perm_insertionSort _ items

theorem sizeSum_perm {l₁ l₂ : List QItem} (h : List.Perm l₁ l₂) :
    sizeSum l₁ = sizeSum l₂ :=
  List.Perm.sum_eq (List.Perm.map _ h)

theorem dropJunk_lang (s : Store) : (dropJunk s).language = s.language := rfl

end StorageM

/-- C5: under `manageStorageQuota`, with all non-exempt records parseable
and the non-exempt records large enough to cover the overflow: the
language-preference record is never touched; the total size is brought
down to at most 5 MB; records are evicted strictly oldest-timestamp-first
(an evicted non-exempt record is no newer than any surviving one); and
eviction proceeds one record at a time, stopping as soon as the quota is
met (whenever removing only the `n` oldest already reaches the quota, the
evicted keys all lie among those `n` oldest). -/
theorem claim_C5_quota_eviction (s : StorageM.Store)
    (hnj : StorageM.NoJunk s)
    (hcover : (StorageM.getStorageSize s : Int) - (StorageM.maxSizeBytes : Int) ≤
      StorageM.sizeSum (StorageM.itemsOf s)) :
    (StorageM.manageStorageQuota s).language = s.language ∧
    StorageM.getStorageSize (StorageM.manageStorageQuota s) ≤
      StorageM.maxSizeBytes ∧
    (∀ k k' ts sz ts' sz', k ≠ StorageM.SKey.language →
      k' ≠ StorageM.SKey.language →
      StorageM.metaAt s k = some (ts, sz) →
      StorageM.metaAt s k' = some (ts', sz') →
      StorageM.metaAt (StorageM.manageStorageQuota s) k = none →
      StorageM.metaAt (StorageM.manageStorageQuota s) k' ≠ none →
      ts ≤ ts') ∧
    (∀ n, (StorageM.getStorageSize s : Int) -
        StorageM.sizeSum ((StorageM.sortByTs (StorageM.itemsOf s)).take n) ≤
          (StorageM.maxSizeBytes : Int) →
      ∀ k, StorageM.metaAt s k ≠ none →
        StorageM.metaAt (StorageM.manageStorageQuota s) k = none →
        k ∈ ((StorageM.sortByTs (StorageM.itemsOf s)).take n).map
          StorageM.QItem.key) := by
  by_cases hover : StorageM.getStorageSize s > StorageM.maxSizeBytes
  case neg =>
    have hs' : StorageM.manageStorageQuota s = s := by
      unfold StorageM.manageStorageQuota
      rw [if_neg hover]
    refine ⟨by rw [hs'], by rw [hs']; omega, ?_, ?_⟩
    · intro k k' ts sz ts' sz' _ _ hm _ hnone _
      rw [hs'] at hnone
      rw [hm] at hnone
      exact absurd hnone (by simp)
    · intro n _ k hne hnone
      rw [hs'] at hnone
      exact absurd hnone hne
  case pos =>
    set c : Int := (StorageM.getStorageSize s : Int) with hc
    set items := StorageM.itemsOf s with hitems
    set sorted := StorageM.sortByTs items with hsorted
    obtain ⟨N, hNlen, hReq, hgt, _, _⟩ := StorageM.evictLoop_spec c sorted 0
    have hs' : StorageM.manageStorageQuota s =
        (StorageM.evictLoop c 0 sorted).foldl StorageM.removeKey s := by
      unfold StorageM.manageStorageQuota
      rw [if_pos hover, StorageM.dropJunk_eq s hnj]
    have hsortmem : ∀ it ∈ sorted, it ∈ items :=
      fun it hit => (List.Perm.mem_iff (StorageM.sortByTs_perm items)).mp hit
    have hsortmeta : ∀ it ∈ sorted,
        StorageM.metaAt s it.key = some (it.timestamp, it.size) :=
      fun it hit => (StorageM.items_meta s it (hsortmem it hit)).2
    have hsortlang : ∀ it ∈ sorted, it.key ≠ StorageM.SKey.language :=
      fun it hit => (StorageM.items_meta s it (hsortmem it hit)).1
    have hnd : (sorted.map StorageM.QItem.key).Nodup :=
      (List.Perm.nodup_iff (List.Perm.map _ (StorageM.sortByTs_perm items))).mpr
        (StorageM.keys_nodup s)
    have hRkeys : ∀ k ∈ StorageM.evictLoop c 0 sorted,
        k ≠ StorageM.SKey.language := by
      intro k hk
      rw [hReq] at hk
      obtain ⟨it, hit, rfl⟩ := List.mem_map.mp hk
      exact hsortlang it (List.take_subset N sorted hit)
    have hmeta' : ∀ k, StorageM.metaAt (StorageM.manageStorageQuota s) k =
        if k ∈ StorageM.evictLoop c 0 sorted then none
        else StorageM.metaAt s k := by
      intro k
      rw [hs']
      exact StorageM.metaAt_foldl_removeKey _ s k
    refine ⟨?_, ?_, ?_, ?_⟩
    · rw [hs']
      exact StorageM.lang_foldl_removeKey _ s hRkeys
    · have hint : (StorageM.getStorageSize
          ((StorageM.evictLoop c 0 sorted).foldl StorageM.removeKey s) : Int) ≤
          (StorageM.maxSizeBytes : Int) := by
        refine StorageM.evict_size c sorted 0 s hsortmeta hnd (by omega) ?_
        have hsz : StorageM.sizeSum sorted = StorageM.sizeSum items :=
          StorageM.sizeSum_perm (StorageM.sortByTs_perm items)
        omega
      rw [hs']
      exact_mod_cast hint
    · intro k k' ts sz ts' sz' hkl hkl' hm hm' hnone hkept
      rw [hmeta'] at hnone hkept
      have hkR : k ∈ StorageM.evictLoop c 0 sorted := by
        by_contra hkR
        rw [if_neg hkR, hm] at hnone
        exact absurd hnone (by simp)
      have hk'R : k' ∉ StorageM.evictLoop c 0 sorted := by
        intro hmem
        rw [if_pos hmem] at hkept
        exact hkept rfl
      rw [hReq] at hkR hk'R
      obtain ⟨it, hitTake, hitKey⟩ := List.mem_map.mp hkR
      have hitMeta := hsortmeta it (List.take_subset N sorted hitTake)
      rw [hitKey, hm] at hitMeta
      have hts : it.timestamp = ts := by
        have := Option.some_inj.mp hitMeta
        exact ((Prod.mk.injEq _ _ _ _ ▸ this).1).symm
      have hit' : (⟨k', ts', sz'⟩ : StorageM.QItem) ∈ sorted :=
        (List.Perm.mem_iff (StorageM.sortByTs_perm items)).mpr
          (StorageM.meta_items s k' ts' sz' hkl' hm')
      have hit'drop : (⟨k', ts', sz'⟩ : StorageM.QItem) ∈ sorted.drop N := by
        rcases List.mem_append.mp
            ((List.take_append_drop N sorted) ▸ hit') with hin | hin
        · exact absurd (List.mem_map_of_mem StorageM.QItem.key hin) hk'R
        · exact hin
      have hrel := List.Sorted.rel_of_mem_take_of_mem_drop
        (StorageM.sortByTs_sorted items) hitTake hit'drop
      rw [hts] at hrel
      exact hrel
    · intro n hn k hne hnone
      rw [hmeta'] at hnone
      have hkR : k ∈ StorageM.evictLoop c 0 sorted := by
        by_contra hkR
        rw [if_neg hkR] at hnone
        exact absurd hnone hne
      have hNn : N ≤ n := by
        by_contra hlt
        have := hgt n (by omega)
        omega
      rw [hReq] at hkR
      have hsub : sorted.take N ⊆ sorted.take n := by
        have : sorted.take N = (sorted.take n).take N := by
          rw [List.take_take, min_eq_left hNn]
        rw [this]
        exact List.take_subset _ _
      exact List.map_subset _ hsub hkR

/-- C5 witness: a store holding 4 MB of cyclone-id data (timestamp 10),
4 MB of routes (timestamp 20) and a small language record: quota
management evicts oldest-first down to the 5 MB budget and leaves the
language record untouched. -/
theorem claim_C5_witness :
    (StorageM.manageStorageQuota
      { lastCyclone := some (.parsed 10 2000000 "c1"),
        savedRoutes := some (.parsed 20 2000000 []),
        checklist := none,
        language := some (.parsed 0 20 "en") }).language =
      (StorageM.Store.mk (some (.parsed 10 2000000 "c1"))
        (some (.parsed 20 2000000 [])) none
        (some (.parsed 0 20 "en"))).language ∧
    StorageM.getStorageSize (StorageM.manageStorageQuota
      { lastCyclone := some (.parsed 10 2000000 "c1"),
        savedRoutes := some (.parsed 20 2000000 []),
        checklist := none,
        language := some (.parsed 0 20 "en") }) ≤ StorageM.maxSizeBytes := by
  have h := claim_C5_quota_eviction
    { lastCyclone := some (.parsed 10 2000000 "c1"),
      savedRoutes := some (.parsed 20 2000000 []),
      checklist := none,
      language := some (.parsed 0 20 "en") }
    (by refine ⟨?_, ?_, ?_⟩ <;> intro n <;> simp)
    (by decide)
  exact ⟨h.1, h.2.1⟩

namespace StorageM

theorem sr_removeKey (s : Store) (k : SKey) :
    (removeKey s k).savedRoutes = s.savedRoutes ∨
      (removeKey s k).savedRoutes = none := by
  rcases k <;> simp [removeKey]

theorem sr_foldl_removeKey :
    ∀ (ks : List SKey) (s0 : Store),
      (ks.foldl removeKey s0).savedRoutes = s0.savedRoutes ∨
        (ks.foldl removeKey s0).savedRoutes = none := by
  intro ks
  induction ks with
  | nil => intro s0; exact Or.inl rfl
  | cons k0 ks ih =>
    intro s0
    rw [List.foldl_cons]
    rcases ih (removeKey s0 k0) with h | h
    · rcases sr_removeKey s0 k0 with h' | h'
      · exact Or.inl (h.trans h')
      · exact Or.inr (h.trans h')
    · exact Or.inr h

theorem sr_dropJunk (s : Store) :
    (dropJunk s).savedRoutes = s.savedRoutes ∨
      (dropJunk s).savedRoutes = none := by
  rcases s with ⟨lc, sr, cl, lg⟩
  rcases sr with _ | c
  · exact Or.inl rfl
  · rcases c with ⟨ts, len, d⟩ | n
    · exact Or.inl rfl
    · exact Or.inr rfl

theorem quota_sr_granularity (s : Store) :
    (manageStorageQuota s).savedRoutes = s.savedRoutes ∨
      (manageStorageQuota s).savedRoutes = none := by
  unfold manageStorageQuota
  by_cases hover : getStorageSize s > maxSizeBytes
  · rw [if_pos hover]
    rcases sr_foldl_removeKey
        (evictLoop (getStorageSize s) 0 (sortByTs (itemsOf s)))
        (dropJunk s) with h | h
    · rcases sr_dropJunk s with h' | h'
      · exact Or.inl (h.trans h')
      · exact Or.inr (h.trans h')
    · exact Or.inr h
  · rw [if_neg hover]
    exact Or.inl rfl

end StorageM

/-- C9: eviction granularity is the whole namespaced record: quota
management leaves the routes record exactly as it was or removes it
entirely (never a proper subset of the routes); `saveRoute` serializes the
whole upserted list under the single `cyclone_saved_routes` key, so the
store after a successful save holds either the complete new list —
including the just-saved route — or, if the record was evicted, nothing:
a subsequent read then returns no routes at all. -/
theorem claim_C9_eviction_granularity :
    (∀ s : StorageM.Store,
      (StorageM.manageStorageQuota s).savedRoutes = s.savedRoutes ∨
        (StorageM.manageStorageQuota s).savedRoutes = none) ∧
    (∀ (s : StorageM.Store) (route : StorageM.SavedRoute) (now : Int)
        (serLen : Nat) (routes : List StorageM.SavedRoute)
        (s₁ s' : StorageM.Store),
      StorageM.getSavedRoutes s now = (.ok routes, s₁) →
      StorageM.saveRoute s route now serLen = .ok s' →
      ((s'.savedRoutes =
          some (.parsed now serLen (StorageM.upsertRoute routes route)) ∨
        s'.savedRoutes = none) ∧
       (s'.savedRoutes = none →
        StorageM.getSavedRoutes s' now = (.ok [], s')))) := by
  refine ⟨StorageM.quota_sr_granularity, ?_⟩
  intro s route now serLen routes s₁ s' hget hsave
  unfold StorageM.saveRoute at hsave
  rw [hget] at hsave
  dsimp only at hsave
  have hs' : s' = StorageM.manageStorageQuota { s₁ with savedRoutes := some (StorageM.Cell.parsed now serLen (StorageM.upsertRoute routes route)) } :=
    (Except.ok.inj hsave).symm
  constructor
  · rcases StorageM.quota_sr_granularity { s₁ with savedRoutes := some (StorageM.Cell.parsed now serLen (StorageM.upsertRoute routes route)) } with h | h
    · exact Or.inl (hs' ▸ h)
    · exact Or.inr (hs' ▸ h)
  · intro hnone
    unfold StorageM.getSavedRoutes
    rw [hnone]

/-- C9 witness: saving a route into an empty store stores the whole
one-element list under the single routes record. -/
theorem claim_C9_witness :
    (StorageM.getSavedRoutes (StorageM.Store.mk none none none none) 0 =
      (.ok [], StorageM.Store.mk none none none none)) ∧
    (StorageM.saveRoute (StorageM.Store.mk none none none none)
      { id := "r1", source := "A", destination := "B", savedAt := 0 } 0 40 =
      .ok (StorageM.Store.mk none
        (some (.parsed 0 40
          [{ id := "r1", source := "A", destination := "B", savedAt := 0 }]))
        none none)) ∧
    ((StorageM.Store.mk none
        (some (.parsed 0 40
          [{ id := "r1", source := "A", destination := "B", savedAt := 0 }]))
        none none).savedRoutes =
      some (.parsed 0 40 (StorageM.upsertRoute []
        { id := "r1", source := "A", destination := "B", savedAt := 0 })) ∨
     (StorageM.Store.mk none
        (some (.parsed 0 40
          [{ id := "r1", source := "A", destination := "B", savedAt := 0 }]))
        none none).savedRoutes = none) :=
  ⟨by decide, by decide,
    ((claim_C9_eviction_granularity.2 (StorageM.Store.mk none none none none)
      { id := "r1", source := "A", destination := "B", savedAt := 0 } 0 40 []
      (StorageM.Store.mk none none none none) _ (by decide) (by decide)).1)⟩
